import Mathlib

/-!
Shallow embedding of the todo-list service (Express router over a Mongo
`Todo` collection): data model, the four routes (POST /todos, GET /todos,
PATCH /todos/:todoId, DELETE /todos/:todoId), and proofs of the ordering
specification's claims about them.
-/

namespace TodoApp

/-- Modelled from the spec: the persisted Item record shape
`{ id, value, order, doneAt }` (the mongoose `todo.schema.js` file is not
part of the sources; §3 and §6 of the spec give the shape).  `id` is the
store-assigned identifier, `doneAt` is absent or an instant (modelled as
`Option Nat`). -/
structure Item where
  id : Nat
  value : String
  order : Int
  doneAt : Option Nat
deriving DecidableEq

/-- The persistent store: the `Todo` collection in insertion order, plus a
counter supplying the next fresh store-assigned id. -/
structure DB where
  items : List Item
  nextId : Nat
deriving DecidableEq

def emptyDB : DB := ⟨[], 0⟩

/-- A request-body `value` field as seen by joi: missing, present but not a
string, or a string. -/
inductive ReqValue where
  | missing
  | notStr
  | str (s : String)
deriving DecidableEq

/-- Embeds `joi.object({ value: joi.string().min(1).max(50).required() })`:
returns the validated string, or `none` for a ValidationError. -/
def createdTodoSchema : ReqValue → Option String
  | .str s => if 1 ≤ s.length ∧ s.length ≤ 50 then some s else none
  | _ => none

/-- The body of a PATCH request: any subset of `{ order, done, value }`.
`none` models an absent (`undefined`) field; for `done` the carried `Bool`
is the truthiness of the supplied value. -/
structure UpdateBody where
  order : Option Int := none
  done : Option Bool := none
  value : Option String := none
deriving DecidableEq

/-- Embeds `Todo.findById(todoId)`: first document whose `_id` matches. -/
def findById (l : List Item) (todoId : Nat) : Option Item :=
  l.find? (fun it => it.id == todoId)

/-- Embeds `Todo.findOne({ order })`: first document whose `order` matches. -/
def findByOrder (l : List Item) (o : Int) : Option Item :=
  l.find? (fun it => it.order == o)

/-- Embeds `Todo.findOne().sort('-order')`: the first document of the
descending-by-`order` stable sort, i.e. the first document attaining the
maximal `order`, or `none` on an empty collection. -/
def findMaxOrder : List Item → Option Item
  | [] => none
  | x :: xs =>
    match findMaxOrder xs with
    | none => some x
    | some y => if x.order < y.order then some y else some x

/-- Embeds `doc.save()`: writes the document back over the stored record
with the same id. -/
def save (l : List Item) (doc : Item) : List Item :=
  l.map (fun it => if it.id = doc.id then doc else it)

/-- Embeds `Todo.deleteOne({ _id: todoId })`: removes the first document
with that id. -/
def deleteOne (l : List Item) (todoId : Nat) : List Item :=
  l.eraseP (fun it => it.id == todoId)

/-- Embeds `router.post('/todos')`: validate the body with
`createdTodoSchema` (a failure reaches the error middleware, modelled from
the spec as a 400 ValidationError response with the store untouched), the
dead `if (!value)` re-check, then `order := maxOrder + 1` (or 1 when the
collection is empty) and persist `new Todo({ value, order })` with `doneAt`
absent.  Returns (status, created todo, store). -/
def createStep (s : DB) (body : ReqValue) : Nat × Option Item × DB :=
  match createdTodoSchema body with
  | none => (400, none, s)
  | some value =>
    if value = "" then (400, none, s)
    else
      let todoMaxOrder := findMaxOrder s.items
      let order : Int :=
        match todoMaxOrder with
        | some t => t.order + 1
        | none => 1
      let todo : Item := ⟨s.nextId, value, order, none⟩
      (201, some todo, ⟨s.items ++ [todo], s.nextId + 1⟩)

/-- Embeds `router.get('/todos')`: `Todo.find().sort('-order')`, returned
with status 200; the store is not written. -/
def listStep (s : DB) : (Nat × List Item) × DB :=
  ((200, s.items.insertionSort (fun a b => b.order ≤ a.order)), s)

/-- Embeds the store writes of the `if (order)` block of the PATCH route,
faithfully to JS truthiness (an absent or zero `order` skips the block):
`findOne({ order })` on the collection as it stands, and if a holder exists,
`targetTodo.order = currentTodo.order; await targetTodo.save()`. -/
def swapWrite (l : List Item) (currentTodo : Item) :
    Option Int → List Item
  | some o =>
    if o ≠ 0 then
      match findByOrder l o with
      | some targetTodo => save l { targetTodo with order := currentTodo.order }
      | none => l
    else l
  | none => l

/-- Embeds `currentTodo.order = order` of the `if (order)` block (skipped,
per JS truthiness, when `order` is absent or zero). -/
def applyOrder (currentTodo : Item) : Option Int → Item
  | some o => if o ≠ 0 then { currentTodo with order := o } else currentTodo
  | none => currentTodo

/-- Embeds `if (done !== undefined) currentTodo.doneAt = done ? new Date() : null`. -/
def applyDone (currentTodo : Item) (now : Nat) : Option Bool → Item
  | some d => { currentTodo with doneAt := if d then some now else none }
  | none => currentTodo

/-- Embeds `if (value) currentTodo.value = value` (skipped, per JS
truthiness, when `value` is absent or the empty string). -/
def applyValue (currentTodo : Item) : Option String → Item
  | some v => if v ≠ "" then { currentTodo with value := v } else currentTodo
  | none => currentTodo

/-- Embeds `router.patch('/todos/:todoId')`.  `findById`; 404 when absent.
Then the order block (`swapWrite` on the store plus `applyOrder` on the
in-memory document read at the start), the `done` block, the `value` block,
and the final `currentTodo.save()`. -/
def updateStep (s : DB) (todoId : Nat) (body : UpdateBody) (now : Nat) :
    Nat × DB :=
  match findById s.items todoId with
  | none => (404, s)
  | some currentTodo =>
    (200,
      { s with
        items :=
          save (swapWrite s.items currentTodo body.order)
            (applyValue (applyDone (applyOrder currentTodo body.order) now body.done)
              body.value) })

/-- Embeds `router.delete('/todos/:todoId')`: `findById`; 404 when absent,
otherwise `deleteOne`. -/
def deleteStep (s : DB) (todoId : Nat) : Nat × DB :=
  match findById s.items todoId with
  | none => (404, s)
  | some _ => (200, { s with items := deleteOne s.items todoId })

/-- One mutating API call (GET is read-only and does not change state). -/
inductive Op where
  | create (body : ReqValue)
  | update (todoId : Nat) (body : UpdateBody) (now : Nat)
  | delete (todoId : Nat)
deriving DecidableEq

/-- The store after one operation. -/
def step (s : DB) : Op → DB
  | .create body => (createStep s body).2.2
  | .update todoId body now => (updateStep s todoId body now).2
  | .delete todoId => (deleteStep s todoId).2

/-- The store after a sequence of operations. -/
def runOps (s : DB) (ops : List Op) : DB := ops.foldl step s

/-- Invariant maintained by every operation: store-assigned ids are pairwise
distinct and below the fresh-id counter, and `order` values are pairwise
distinct. -/
def Inv (s : DB) : Prop :=
  (s.items.map (·.id)).Nodup ∧
    (∀ i ∈ s.items.map (·.id), i < s.nextId) ∧
    (s.items.map (·.order)).Nodup

/-- The list of `order` values `1, 2, ..., k` as integers. -/
def natOrders (k : Nat) : List Int :=
  (List.range' 1 k).map (fun j : Nat => (j : Int))

/-- A reachable store holding Item 0 with order -1 and Item 1 with order 0:
Create gives order 1, an Update moves it to -1, and a second Create then
assigns max + 1 = 0. -/
def c2Store : DB :=
  runOps emptyDB [Op.create (.str "a"),
    Op.update 0 ⟨some (-1), none, none⟩ 0, Op.create (.str "b")]

/-- A reachable store holding a single Item 0 with order 1. -/
def c4Store : DB := runOps emptyDB [Op.create (.str "a")]

/-- Whether an operation's Update body carries a value of length at most
50 (Create bodies and Delete are unconstrained, as Create validates its own
input). -/
def opValueBounded : Op → Bool
  | .update _ b _ =>
    match b.value with
    | some v => decide (v.length ≤ 50)
    | none => true
  | _ => true

/-- Every Item in the store has a value of length 1 to 50. -/
def ValOk (s : DB) : Prop :=
  ∀ it ∈ s.items, 1 ≤ it.value.length ∧ it.value.length ≤ 50

/-- A request value of 51 characters, which the PATCH route accepts without
any length validation. -/
def oversizedValue : String :=
  "aaaaaaaaaaaaaaaaaaaaaaaaaaaaaaaaaaaaaaaaaaaaaaaaaaa"

instance : IsTotal Item (fun a b => b.order ≤ a.order) :=
  ⟨fun a b => le_total b.order a.order⟩

instance : IsTrans Item (fun a b => b.order ≤ a.order) :=
  ⟨fun _ _ _ hab hbc => le_trans hbc hab⟩

/-! ### Helper lemmas about the store primitives -/

theorem findById_mem {l : List Item} {i : Nat} {a : Item}
    (h : findById l i = some a) : a ∈ l ∧ a.id = i := by
  refine ⟨List.mem_of_find?_eq_some h, ?_⟩
  have := List.find?_some h
  simpa using this

theorem findByOrder_mem {l : List Item} {o : Int} {a : Item}
    (h : findByOrder l o = some a) : a ∈ l ∧ a.order = o := by
  refine ⟨List.mem_of_find?_eq_some h, ?_⟩
  have := List.find?_some h
  simpa using this

theorem eq_of_id_of_nodup {l : List Item}
    (hid : (l.map (·.id)).Nodup) {a b : Item}
    (ha : a ∈ l) (hb : b ∈ l) (h : a.id = b.id) : a = b :=
  List.inj_on_of_nodup_map hid ha hb h

theorem eq_of_order_of_nodup {l : List Item}
    (hord : (l.map (·.order)).Nodup) {a b : Item}
    (ha : a ∈ l) (hb : b ∈ l) (h : a.order = b.order) : a = b :=
  List.inj_on_of_nodup_map hord ha hb h

theorem findById_of_nodup {l : List Item}
    (hid : (l.map (·.id)).Nodup) {a : Item} (ha : a ∈ l) :
    findById l a.id = some a := by
  have hsome : (l.find? (fun it => it.id == a.id)).isSome := by
    rw [List.find?_isSome]
    exact ⟨a, ha, by simp⟩
  obtain ⟨b, hb⟩ := Option.isSome_iff_exists.mp hsome
  have hb' : findById l a.id = some b := hb
  obtain ⟨hbmem, hbid⟩ := findById_mem hb'
  rw [hb', eq_of_id_of_nodup hid hbmem ha hbid]

theorem findByOrder_of_nodup {l : List Item}
    (hord : (l.map (·.order)).Nodup) {a : Item} (ha : a ∈ l) :
    findByOrder l a.order = some a := by
  have hsome : (l.find? (fun it => it.order == a.order)).isSome := by
    rw [List.find?_isSome]
    exact ⟨a, ha, by simp⟩
  obtain ⟨b, hb⟩ := Option.isSome_iff_exists.mp hsome
  have hb' : findByOrder l a.order = some b := hb
  obtain ⟨hbmem, hbord⟩ := findByOrder_mem hb'
  rw [hb', eq_of_order_of_nodup hord hbmem ha hbord]

theorem save_map_id (l : List Item) (d : Item) :
    (save l d).map (·.id) = l.map (·.id) := by
  rw [save, List.map_map]
  apply List.map_congr_left
  intro it _
  by_cases h : it.id = d.id <;> simp [h]

theorem mem_save {l : List Item} {d it : Item}
    (h : it ∈ save l d) : it = d ∨ it ∈ l := by
  rw [save, List.mem_map] at h
  obtain ⟨x, hx, hxe⟩ := h
  by_cases hc : x.id = d.id
  · simp [hc] at hxe; exact Or.inl hxe.symm
  · simp [hc] at hxe; exact Or.inr (hxe ▸ hx)

theorem save_map_order (l : List Item) (d : Item) :
    (save l d).map (·.order) =
      l.map (fun it => if it.id = d.id then d.order else it.order) := by
  rw [save, List.map_map]
  apply List.map_congr_left
  intro it _
  by_cases h : it.id = d.id <;> simp [h]

theorem save_eq_self {l : List Item} {a : Item}
    (huniq : ∀ it ∈ l, it.id = a.id → it = a) : save l a = l := by
  rw [save]
  conv_rhs => rw [← List.map_id l]
  apply List.map_congr_left
  intro it hit
  by_cases h : it.id = a.id
  · simp [h, (huniq it hit h).symm]
  · simp [h]

theorem findById_save_self {l : List Item} {d : Item}
    (h : ∃ x ∈ l, x.id = d.id) : findById (save l d) d.id = some d := by
  induction l with
  | nil => simp at h
  | cons x xs ih =>
    by_cases hx : x.id = d.id
    · simp [findById, save, List.find?_cons, hx]
    · have h' : ∃ y ∈ xs, y.id = d.id := by
        obtain ⟨y, hy, hyd⟩ := h
        rcases List.mem_cons.mp hy with rfl | hmem
        · exact absurd hyd hx
        · exact ⟨y, hmem, hyd⟩
      have := ih h'
      simpa [findById, save, List.find?_cons, hx] using this

theorem findById_save_ne {l : List Item} {d : Item} {j : Nat}
    (h : j ≠ d.id) : findById (save l d) j = findById l j := by
  induction l with
  | nil => rfl
  | cons x xs ih =>
    by_cases hx : x.id = d.id
    · have : ¬ d.id = j := fun he => h he.symm
      have hxj : ¬ x.id = j := by rw [hx]; exact this
      simpa [findById, save, List.find?_cons, hx, this, hxj] using ih
    · by_cases hxj : x.id = j
      · simp [findById, save, List.find?_cons, hx, hxj, h]
      · simpa [findById, save, List.find?_cons, hx, hxj] using ih

theorem findMaxOrder_spec (l : List Item) :
    (l = [] ∧ findMaxOrder l = none) ∨
      ∃ t, findMaxOrder l = some t ∧ t ∈ l ∧ ∀ x ∈ l, x.order ≤ t.order := by
  induction l with
  | nil => exact Or.inl ⟨rfl, rfl⟩
  | cons x xs ih =>
    right
    rcases ih with ⟨hnil, hnone⟩ | ⟨t, ht, htm, htmax⟩
    · refine ⟨x, ?_, List.mem_cons_self x xs, ?_⟩
      · rw [findMaxOrder, hnone]
      · intro y hy
        rcases List.mem_cons.mp hy with rfl | hmem
        · exact le_refl _
        · rw [hnil] at hmem; simp at hmem
    · by_cases hlt : x.order < t.order
      · refine ⟨t, ?_, List.mem_cons_of_mem x htm, ?_⟩
        · rw [findMaxOrder, ht]; simp [hlt]
        · intro y hy
          rcases List.mem_cons.mp hy with rfl | hmem
          · exact le_of_lt hlt
          · exact htmax y hmem
      · refine ⟨x, ?_, List.mem_cons_self x xs, ?_⟩
        · rw [findMaxOrder, ht]; simp [hlt]
        · intro y hy
          rcases List.mem_cons.mp hy with rfl | hmem
          · exact le_refl _
          · exact le_trans (htmax y hmem) (not_lt.mp hlt)

theorem findMaxOrder_eq_none {l : List Item}
    (h : findMaxOrder l = none) : l = [] := by
  rcases findMaxOrder_spec l with ⟨hnil, _⟩ | ⟨t, ht, _, _⟩
  · exact hnil
  · rw [h] at ht; exact absurd ht (by simp)

@[simp] theorem applyOrder_id (c : Item) (bo : Option Int) :
    (applyOrder c bo).id = c.id := by
  cases bo with
  | none => rfl
  | some o => by_cases h : o = 0 <;> simp [applyOrder, h]

@[simp] theorem applyOrder_doneAt (c : Item) (bo : Option Int) :
    (applyOrder c bo).doneAt = c.doneAt := by
  cases bo with
  | none => rfl
  | some o => by_cases h : o = 0 <;> simp [applyOrder, h]

@[simp] theorem applyOrder_value (c : Item) (bo : Option Int) :
    (applyOrder c bo).value = c.value := by
  cases bo with
  | none => rfl
  | some o => by_cases h : o = 0 <;> simp [applyOrder, h]

@[simp] theorem applyDone_id (c : Item) (now : Nat) (bd : Option Bool) :
    (applyDone c now bd).id = c.id := by
  cases bd <;> rfl

@[simp] theorem applyDone_order (c : Item) (now : Nat) (bd : Option Bool) :
    (applyDone c now bd).order = c.order := by
  cases bd <;> rfl

@[simp] theorem applyDone_value (c : Item) (now : Nat) (bd : Option Bool) :
    (applyDone c now bd).value = c.value := by
  cases bd <;> rfl

@[simp] theorem applyValue_id (c : Item) (bv : Option String) :
    (applyValue c bv).id = c.id := by
  cases bv with
  | none => rfl
  | some v => by_cases h : v = "" <;> simp [applyValue, h]

@[simp] theorem applyValue_order (c : Item) (bv : Option String) :
    (applyValue c bv).order = c.order := by
  cases bv with
  | none => rfl
  | some v => by_cases h : v = "" <;> simp [applyValue, h]

@[simp] theorem applyValue_doneAt (c : Item) (bv : Option String) :
    (applyValue c bv).doneAt = c.doneAt := by
  cases bv with
  | none => rfl
  | some v => by_cases h : v = "" <;> simp [applyValue, h]

theorem swapWrite_map_id (l : List Item) (c : Item) (bo : Option Int) :
    (swapWrite l c bo).map (·.id) = l.map (·.id) := by
  cases bo with
  | none => rfl
  | some o =>
    by_cases h : o = 0
    · simp [swapWrite, h]
    · cases hfo : findByOrder l o with
      | none => simp [swapWrite, h, hfo]
      | some t => simp [swapWrite, h, hfo, save_map_id]

/-! ### Preservation of pairwise-distinct orders -/

theorem save_map_order_self {l : List Item}
    (hid : (l.map (·.id)).Nodup) {A d : Item} (hA : A ∈ l)
    (hdid : d.id = A.id) (hdord : d.order = A.order) :
    (save l d).map (·.order) = l.map (·.order) := by
  rw [save_map_order]
  apply List.map_congr_left
  intro it hit
  by_cases h : it.id = d.id
  · have : it = A := eq_of_id_of_nodup hid hit hA (h.trans hdid)
    rw [if_pos h, hdord, this]
  · rw [if_neg h]

theorem nodup_orders_move {l : List Item}
    (hid : (l.map (·.id)).Nodup) (hord : (l.map (·.order)).Nodup)
    {A : Item} {o : Int} (ho : ∀ x ∈ l, x.order ≠ o) :
    (l.map (fun it => if it.id = A.id then o else it.order)).Nodup := by
  apply List.Nodup.map_on ?_ (hid.of_map)
  intro x hx y hy hxy
  by_cases hxA : x.id = A.id <;> by_cases hyA : y.id = A.id
  · exact eq_of_id_of_nodup hid hx hy (hxA.trans hyA.symm)
  · rw [if_pos hxA, if_neg hyA] at hxy
    exact absurd hxy.symm (ho y hy)
  · rw [if_neg hxA, if_pos hyA] at hxy
    exact absurd hxy (ho x hx)
  · rw [if_neg hxA, if_neg hyA] at hxy
    exact eq_of_order_of_nodup hord hx hy hxy

theorem nodup_orders_swap {l : List Item}
    (hid : (l.map (·.id)).Nodup) (hord : (l.map (·.order)).Nodup)
    {A t : Item} (hA : A ∈ l) (ht : t ∈ l) (_htA : t.id ≠ A.id)
    {o : Int} (hto : t.order = o) (hAo : A.order ≠ o) :
    (l.map (fun it =>
      if it.id = t.id then A.order
      else if it.id = A.id then o else it.order)).Nodup := by
  apply List.Nodup.map_on ?_ (hid.of_map)
  intro x hx y hy hxy
  have key : ∀ z ∈ l, z.id ≠ t.id → z.id ≠ A.id →
      (z.order ≠ A.order ∧ z.order ≠ o) := by
    intro z hz hzt hzA
    constructor
    · intro he
      exact hzA ((eq_of_order_of_nodup hord hz hA he) ▸ rfl)
    · intro he
      exact hzt ((eq_of_order_of_nodup hord hz ht (he.trans hto.symm)) ▸ rfl)
  by_cases hxt : x.id = t.id <;> by_cases hyt : y.id = t.id
  · exact eq_of_id_of_nodup hid hx hy (hxt.trans hyt.symm)
  · by_cases hyA : y.id = A.id
    · rw [if_pos hxt, if_neg hyt, if_pos hyA] at hxy
      exact absurd hxy hAo
    · rw [if_pos hxt, if_neg hyt, if_neg hyA] at hxy
      exact absurd hxy.symm (key y hy hyt hyA).1
  · by_cases hxA : x.id = A.id
    · rw [if_neg hxt, if_pos hxA, if_pos hyt] at hxy
      exact absurd hxy.symm hAo
    · rw [if_neg hxt, if_neg hxA, if_pos hyt] at hxy
      exact absurd hxy (key x hx hxt hxA).1
  · by_cases hxA : x.id = A.id <;> by_cases hyA : y.id = A.id
    · exact eq_of_id_of_nodup hid hx hy (hxA.trans hyA.symm)
    · rw [if_neg hxt, if_pos hxA, if_neg hyt, if_neg hyA] at hxy
      exact absurd hxy.symm (key y hy hyt hyA).2
    · rw [if_neg hxt, if_neg hxA, if_neg hyt, if_pos hyA] at hxy
      exact absurd hxy (key x hx hxt hxA).2
    · rw [if_neg hxt, if_neg hxA, if_neg hyt, if_neg hyA] at hxy
      exact eq_of_order_of_nodup hord hx hy hxy

/-! ### The reachable-state invariant -/

theorem inv_emptyDB : Inv emptyDB := by
  refine ⟨List.nodup_nil, ?_, List.nodup_nil⟩
  intro i hi
  simp [emptyDB] at hi

theorem uniq_id_of_nodup {l : List Item}
    (hid : (l.map (·.id)).Nodup) {A : Item} (hA : A ∈ l) :
    ∀ it ∈ l, it.id = A.id → it = A :=
  fun it hit he => eq_of_id_of_nodup hid hit hA he

theorem inv_createStep (s : DB) (body : ReqValue) (h : Inv s) :
    Inv (createStep s body).2.2 := by
  obtain ⟨hid, hlt, hord⟩ := h
  cases hv : createdTodoSchema body with
  | none => simpa [createStep, hv] using ⟨hid, hlt, hord⟩
  | some v =>
    by_cases hve : v = ""
    · simpa [createStep, hv, hve] using ⟨hid, hlt, hord⟩
    · simp only [createStep, hv, hve, if_neg, ite_false]
      rcases findMaxOrder_spec s.items with ⟨hnil, hnone⟩ | ⟨t, ht, htm, htmax⟩
      · simp only [hnone]
        refine ⟨?_, ?_, ?_⟩
        · simp [hnil]
        · intro i hi
          simp only [hnil, List.nil_append, List.map_cons, List.map_nil,
            List.mem_singleton] at hi
          show i < s.nextId + 1
          omega
        · simp [hnil]
      · simp only [ht]
        refine ⟨?_, ?_, ?_⟩
        · rw [List.map_append, List.nodup_append]
          refine ⟨hid, by simp, ?_⟩
          intro i hi
          have := hlt i hi
          simp only [List.map_cons, List.map_nil, List.mem_singleton]
          omega
        · intro i hi
          rw [List.map_append] at hi
          rcases List.mem_append.mp hi with hmem | hmem
          · have := hlt i hmem
            show i < s.nextId + 1
            omega
          · simp only [List.map_cons, List.map_nil, List.mem_singleton] at hmem
            show i < s.nextId + 1
            omega
        · rw [List.map_append, List.nodup_append]
          refine ⟨hord, by simp, ?_⟩
          intro o ho
          obtain ⟨x, hx, hxo⟩ := List.mem_map.mp ho
          have := htmax x hx
          simp only [List.map_cons, List.map_nil, List.mem_singleton]
          omega

theorem inv_updateStep (s : DB) (tid : Nat) (body : UpdateBody) (now : Nat)
    (h : Inv s) : Inv (updateStep s tid body now).2 := by
  obtain ⟨hid, hlt, hord⟩ := h
  cases hf : findById s.items tid with
  | none => simpa [updateStep, hf] using ⟨hid, hlt, hord⟩
  | some A =>
    obtain ⟨hA, hAid⟩ := findById_mem hf
    simp only [updateStep, hf]
    have hcid : ∀ bo,
        (applyValue (applyDone (applyOrder A bo) now body.done) body.value).id =
          A.id := by
      intro bo; simp
    refine ⟨?_, ?_, ?_⟩
    · rw [save_map_id, swapWrite_map_id]; exact hid
    · intro i hi
      rw [save_map_id, swapWrite_map_id] at hi
      exact hlt i hi
    · cases hbo : body.order with
      | none =>
        have hco :
            (applyValue (applyDone (applyOrder A none) now body.done)
              body.value).order = A.order := by
          simp [applyOrder]
        rw [show swapWrite s.items A none = s.items from rfl,
          save_map_order_self hid hA (hcid none) hco]
        exact hord
      | some o =>
        by_cases ho : o = 0
        · subst ho
          have hco :
              (applyValue (applyDone (applyOrder A (some 0)) now body.done)
                body.value).order = A.order := by
            simp [applyOrder]
          rw [show swapWrite s.items A (some 0) = s.items by simp [swapWrite],
            save_map_order_self hid hA (hcid (some 0)) hco]
          exact hord
        · have hco :
              (applyValue (applyDone (applyOrder A (some o)) now body.done)
                body.value).order = o := by
            simp [applyOrder, ho]
          cases hfo : findByOrder s.items o with
          | none =>
            have hno : ∀ x ∈ s.items, x.order ≠ o := by
              intro x hx
              have := List.find?_eq_none.mp hfo x hx
              simpa using this
            rw [show swapWrite s.items A (some o) = s.items by
                simp [swapWrite, ho, hfo],
              save_map_order]
            simp only [hcid (some o), hco]
            exact nodup_orders_move hid hord hno
          | some t =>
            obtain ⟨htm, hto⟩ := findByOrder_mem hfo
            by_cases hti : t.id = A.id
            · have htA : t = A := eq_of_id_of_nodup hid htm hA hti
              have hoA : A.order = o := htA ▸ hto
              have hsw : swapWrite s.items A (some o) = s.items := by
                simp only [swapWrite, ho, ne_eq, not_false_iff, if_true, hfo]
                rw [htA]
                exact save_eq_self (uniq_id_of_nodup hid hA)
              rw [hsw, save_map_order_self hid hA (hcid (some o))
                (hco.trans hoA.symm)]
              exact hord
            · have hAo : A.order ≠ o := fun he =>
                hti (congrArg Item.id
                  (eq_of_order_of_nodup hord htm hA (hto.trans he.symm)))
              have hsw : swapWrite s.items A (some o) =
                  save s.items { t with order := A.order } := by
                simp [swapWrite, ho, hfo]
              rw [hsw, save_map_order, save, List.map_map]
              have hptw :
                  List.map
                    ((fun it =>
                        if it.id =
                            (applyValue (applyDone (applyOrder A (some o)) now
                              body.done) body.value).id
                          then (applyValue (applyDone (applyOrder A (some o))
                              now body.done) body.value).order
                          else it.order) ∘
                      fun it =>
                        if it.id = ({ t with order := A.order } : Item).id
                          then { t with order := A.order } else it)
                    s.items =
                  List.map
                    (fun it =>
                      if it.id = t.id then A.order
                      else if it.id = A.id then o else it.order) s.items := by
                apply List.map_congr_left
                intro it _
                by_cases hit : it.id = t.id
                · simp [Function.comp, hit, hti, hcid (some o)]
                · simp [Function.comp, hit, hcid (some o), applyOrder, ho]
              rw [hptw]
              exact nodup_orders_swap hid hord hA htm hti hto hAo

theorem inv_deleteStep (s : DB) (tid : Nat) (h : Inv s) :
    Inv (deleteStep s tid).2 := by
  obtain ⟨hid, hlt, hord⟩ := h
  cases hf : findById s.items tid with
  | none => simpa [deleteStep, hf] using ⟨hid, hlt, hord⟩
  | some A =>
    simp only [deleteStep, hf]
    have hsub : List.Sublist (deleteOne s.items tid) s.items :=
      List.eraseP_sublist _
    refine ⟨(hsub.map _).nodup hid, ?_, (hsub.map _).nodup hord⟩
    intro i hi
    exact hlt i ((hsub.map (·.id)).subset hi)

theorem inv_step (s : DB) (op : Op) (h : Inv s) : Inv (step s op) := by
  cases op with
  | create body => exact inv_createStep s body h
  | update tid body now => exact inv_updateStep s tid body now h
  | delete tid => exact inv_deleteStep s tid h

theorem inv_runOps (ops : List Op) : Inv (runOps emptyDB ops) := by
  suffices h : ∀ s, Inv s → Inv (runOps s ops) from h emptyDB inv_emptyDB
  induction ops with
  | nil => intro s hs; exact hs
  | cons op rest ih =>
    intro s hs
    exact ih (step s op) (inv_step s op hs)

theorem createdTodoSchema_some {body : ReqValue} {v : String}
    (h : createdTodoSchema body = some v) :
    body = .str v ∧ 1 ≤ v.length ∧ v.length ≤ 50 := by
  cases body with
  | missing => simp [createdTodoSchema] at h
  | notStr => simp [createdTodoSchema] at h
  | str s =>
    rw [createdTodoSchema] at h
    by_cases hc : 1 ≤ s.length ∧ s.length ≤ 50
    · rw [if_pos hc] at h
      obtain rfl : s = v := Option.some_injective _ h
      exact ⟨rfl, hc⟩
    · rw [if_neg hc] at h
      exact absurd h (by simp)

theorem createdTodoSchema_ne_empty {body : ReqValue} {v : String}
    (h : createdTodoSchema body = some v) : v ≠ "" := by
  intro he
  have h1 := (createdTodoSchema_some h).2.1
  rw [he] at h1
  exact absurd h1 (by decide)

example :
    (runOps emptyDB [Op.create (.str "a"), Op.create (.str "b")]).items =
      [⟨0, "a", 1, none⟩, ⟨1, "b", 2, none⟩] := by decide

example :
    (runOps emptyDB [Op.create (.str "a"), Op.create (.str "b"),
      Op.update 0 ⟨some 2, none, none⟩ 5]).items =
      [⟨0, "a", 2, none⟩, ⟨1, "b", 1, none⟩] := by decide

example :
    (runOps emptyDB [Op.create (.str "a"),
      Op.update 0 ⟨some (-1), none, none⟩ 0, Op.create (.str "b")]).items =
      [⟨0, "a", -1, none⟩, ⟨1, "b", 0, none⟩] := by decide

/-! ### Claim theorems -/

/-- C1: for every sequence of Create, Update and Delete operations executed
sequentially from the empty store, the `order` values of the Items remaining
in the store are pairwise distinct. -/
theorem c1_orders_pairwise_distinct (ops : List Op) :
    ((runOps emptyDB ops).items.map (·.order)).Nodup :=
  (inv_runOps ops).2.2

/-- C8: when the given id resolves to no existing Item, Update and Delete
both answer 404 and leave the store completely unchanged. -/
theorem c8_not_found_is_noop (s : DB) (todoId : Nat) (body : UpdateBody)
    (now : Nat) (h : ∀ it ∈ s.items, it.id ≠ todoId) :
    updateStep s todoId body now = (404, s) ∧
      deleteStep s todoId = (404, s) := by
  have hf : findById s.items todoId = none := by
    rw [findById, List.find?_eq_none]
    intro x hx
    simpa using h x hx
  exact ⟨by simp [updateStep, hf], by simp [deleteStep, hf]⟩

theorem c8_not_found_is_noop_witness :
    updateStep (runOps emptyDB [Op.create (.str "a")]) 7
        ⟨some 1, some true, some "x"⟩ 3 =
      (404, runOps emptyDB [Op.create (.str "a")]) ∧
      deleteStep (runOps emptyDB [Op.create (.str "a")]) 7 =
        (404, runOps emptyDB [Op.create (.str "a")]) :=
  c8_not_found_is_noop (runOps emptyDB [Op.create (.str "a")]) 7
    ⟨some 1, some true, some "x"⟩ 3 (by decide)

/-- C9: List answers 200 with all the Items of the store (a permutation of
the store, so in particular the empty store yields the empty collection
without error), sorted strictly descending by `order` whenever the orders
are pairwise distinct, and the store itself is not modified. -/
theorem c9_list_sorted_descending (s : DB) :
    (listStep s).2 = s ∧
      (listStep s).1.1 = 200 ∧
      ((listStep s).1.2).Perm s.items ∧
      ((s.items.map (·.order)).Nodup →
        ((listStep s).1.2).Pairwise (fun a b => b.order < a.order)) := by
  refine ⟨rfl, rfl, List.perm_insertionSort _ _, ?_⟩
  intro hord
  have hsorted : ((listStep s).1.2).Pairwise (fun a b => b.order ≤ a.order) :=
    List.sorted_insertionSort _ s.items
  have hperm : (((listStep s).1.2).map (·.order)).Perm
      (s.items.map (·.order)) :=
    (List.perm_insertionSort _ s.items).map _
  have hnodup : (((listStep s).1.2).map (·.order)).Nodup :=
    hperm.nodup_iff.mpr hord
  have hpair : ((listStep s).1.2).Pairwise (fun a b => a.order ≠ b.order) :=
    List.pairwise_map.mp hnodup
  exact (hsorted.and hpair).imp fun h => lt_of_le_of_ne h.1 h.2.symm

theorem c9_list_sorted_descending_witness :
    ((listStep (runOps emptyDB [Op.create (.str "a"),
        Op.create (.str "b")])).1.2).Pairwise (fun a b => b.order < a.order) :=
  (c9_list_sorted_descending
    (runOps emptyDB [Op.create (.str "a"), Op.create (.str "b")])).2.2.2
    (by decide)

theorem createStep_items_of_valid {s : DB} {body : ReqValue} {v : String}
    (hv : createdTodoSchema body = some v) :
    createStep s body =
      (201,
        some ⟨s.nextId, v,
          match findMaxOrder s.items with
          | some t => t.order + 1
          | none => 1, none⟩,
        ⟨s.items ++
          [⟨s.nextId, v,
            match findMaxOrder s.items with
            | some t => t.order + 1
            | none => 1, none⟩], s.nextId + 1⟩) := by
  have hve := createdTodoSchema_ne_empty hv
  simp only [createStep, hv]
  rw [if_neg hve]

theorem mem_natOrders {o : Int} {k : Nat} :
    o ∈ natOrders k ↔ 1 ≤ o ∧ o ≤ (k : Int) := by
  rw [natOrders, List.mem_map]
  constructor
  · rintro ⟨j, hj, rfl⟩
    obtain ⟨h1, h2⟩ := List.mem_range'_1.mp hj
    omega
  · rintro ⟨h1, h2⟩
    refine ⟨o.toNat, List.mem_range'_1.mpr ⟨by omega, by omega⟩, by omega⟩

theorem natOrders_concat (k : Nat) :
    natOrders (k + 1) = natOrders k ++ [((k : Int) + 1)] := by
  rw [natOrders, List.range'_concat, List.map_append, natOrders]
  congr 1
  simp only [List.map_cons, List.map_nil]
  congr 1
  omega

theorem natOrders_zero : natOrders 0 = [] := rfl

theorem creates_orders_range {bodies : List ReqValue}
    (hb : ∀ b ∈ bodies, (createdTodoSchema b).isSome) :
    ∀ s k, s.items.map (·.order) = natOrders k →
      (runOps s (bodies.map Op.create)).items.map (·.order) =
        natOrders (k + bodies.length) := by
  induction bodies with
  | nil => intro s k h; simpa [runOps] using h
  | cons b rest ih =>
    intro s k h
    obtain ⟨v, hv⟩ := Option.isSome_iff_exists.mp
      (hb b (List.mem_cons_self b rest))
    have hb' : ∀ x ∈ rest, (createdTodoSchema x).isSome := fun x hx =>
      hb x (List.mem_cons_of_mem b hx)
    have horder :
        (match findMaxOrder s.items with
          | some t => t.order + 1
          | none => (1 : Int)) = ((k : Int) + 1) := by
      rcases findMaxOrder_spec s.items with ⟨hnil, hnone⟩ | ⟨m, hm, hmm, hmax⟩
      · rw [hnil] at h
        have hlen : (natOrders k).length = 0 := by
          rw [← h]; rfl
        have hk : k = 0 := by
          rw [natOrders, List.length_map, List.length_range'] at hlen
          exact hlen
        rw [hnone]
        show (1 : Int) = (k : Int) + 1
        omega
      · have hmem : m.order ∈ natOrders k := by
          rw [← h]
          exact List.mem_map_of_mem _ hmm
        obtain ⟨hm1, hmk⟩ := mem_natOrders.mp hmem
        have hk1 : 1 ≤ k := by
          by_contra hc
          omega
        have hkmem : ((k : Int)) ∈ s.items.map (·.order) := by
          rw [h]
          exact mem_natOrders.mpr ⟨by omega, le_refl _⟩
        obtain ⟨x, hx, hxo⟩ := List.mem_map.mp hkmem
        have hxm := hmax x hx
        have hmo : m.order = (k : Int) := by omega
        rw [hm]
        show m.order + 1 = (k : Int) + 1
        omega
    have hstep :
        (step s (Op.create b)).items.map (·.order) = natOrders (k + 1) := by
      rw [step, createStep_items_of_valid hv]
      simp only [List.map_append, h, List.map_cons, List.map_nil]
      rw [natOrders_concat, horder]
    have hrest := ih hb' (step s (Op.create b)) (k + 1) hstep
    have hrun : runOps s ((b :: rest).map Op.create) =
        runOps (step s (Op.create b)) (rest.map Op.create) := rfl
    rw [hrun, hrest]
    congr 1
    simp only [List.length_cons]
    omega

/-- C3: a successful Create assigns the new Item an `order` equal to the
greatest existing `order` plus one, or 1 on the empty store; consequently a
sequence of n valid Create calls from the empty store assigns the orders
1, 2, ..., n in call order. -/
theorem c3_create_appends_max_plus_one :
    (∀ (s : DB) (body : ReqValue) (v : String),
      createdTodoSchema body = some v →
        ∃ t, (createStep s body).2.1 = some t ∧
          (createStep s body).2.2.items = s.items ++ [t] ∧
          ((s.items = [] ∧ t.order = 1) ∨
            ∃ m ∈ s.items, (∀ x ∈ s.items, x.order ≤ m.order) ∧
              t.order = m.order + 1)) ∧
    ∀ bodies : List ReqValue,
      (∀ b ∈ bodies, (createdTodoSchema b).isSome) →
      (runOps emptyDB (bodies.map Op.create)).items.map (·.order) =
        natOrders bodies.length := by
  constructor
  · intro s body v hv
    rw [createStep_items_of_valid hv]
    refine ⟨_, rfl, rfl, ?_⟩
    rcases findMaxOrder_spec s.items with ⟨hnil, hnone⟩ | ⟨m, hm, hmm, hmax⟩
    · left
      exact ⟨hnil, by rw [hnone]⟩
    · right
      exact ⟨m, hmm, hmax, by rw [hm]⟩
  · intro bodies hb
    have := creates_orders_range hb emptyDB 0 (by simp [emptyDB, natOrders_zero])
    simpa using this

theorem c3_create_appends_max_plus_one_witness :
    (∃ t, (createStep (runOps emptyDB [Op.create (.str "a")]) (.str "b")).2.1 =
        some t ∧
      (createStep (runOps emptyDB [Op.create (.str "a")]) (.str "b")).2.2.items =
        (runOps emptyDB [Op.create (.str "a")]).items ++ [t] ∧
      (((runOps emptyDB [Op.create (.str "a")]).items = [] ∧ t.order = 1) ∨
        ∃ m ∈ (runOps emptyDB [Op.create (.str "a")]).items,
          (∀ x ∈ (runOps emptyDB [Op.create (.str "a")]).items,
            x.order ≤ m.order) ∧ t.order = m.order + 1)) ∧
    (runOps emptyDB ([ReqValue.str "a", ReqValue.str "b"].map Op.create)).items.map
        (·.order) =
      natOrders [ReqValue.str "a", ReqValue.str "b"].length :=
  ⟨c3_create_appends_max_plus_one.1 (runOps emptyDB [Op.create (.str "a")])
      (.str "b") "b" (by decide),
    c3_create_appends_max_plus_one.2 [ReqValue.str "a", ReqValue.str "b"]
      (by decide)⟩

/-- C7: Create with a missing, non-string, empty or over-50-character
`value` fails with 400 and leaves the store unchanged; Create with a string
of length 1 to 50 answers 201, returns the created Item, and appends
exactly that Item to the store. -/
theorem c7_create_validation (s : DB) (body : ReqValue) :
    ((body = .missing ∨ body = .notStr ∨
        ∃ v, body = .str v ∧ (v.length = 0 ∨ 50 < v.length)) →
      createStep s body = (400, none, s)) ∧
    ∀ v, body = .str v → 1 ≤ v.length → v.length ≤ 50 →
      ∃ t, createStep s body = (201, some t, ⟨s.items ++ [t], s.nextId + 1⟩) ∧
        t.value = v := by
  constructor
  · intro hbad
    have hnone : createdTodoSchema body = none := by
      rcases hbad with rfl | rfl | ⟨v, rfl, hlen⟩
      · rfl
      · rfl
      · rw [createdTodoSchema, if_neg]
        rintro ⟨h1, h2⟩
        omega
    simp [createStep, hnone]
  · intro v hb h1 h50
    subst hb
    have hv : createdTodoSchema (.str v) = some v := by
      rw [createdTodoSchema, if_pos ⟨h1, h50⟩]
    rw [createStep_items_of_valid hv]
    exact ⟨_, rfl, rfl⟩

theorem c7_create_validation_witness :
    createStep emptyDB (.str "") = (400, none, emptyDB) ∧
      ∃ t, createStep emptyDB (.str "ok") =
          (201, some t, ⟨emptyDB.items ++ [t], emptyDB.nextId + 1⟩) ∧
        t.value = "ok" :=
  ⟨(c7_create_validation emptyDB (.str "")).1
      (Or.inr (Or.inr ⟨"", rfl, Or.inl (by decide)⟩)),
    (c7_create_validation emptyDB (.str "ok")).2 "ok" rfl (by decide)
      (by decide)⟩

/-- C6: for an Update of an existing Item, supplying `done = true` makes the
Item's `doneAt` the (non-absent) current time, supplying `done = false`
clears `doneAt` to absent, and omitting `done` leaves `doneAt` exactly as it
was before the call, regardless of the other supplied fields. -/
theorem c6_done_controls_doneAt (s : DB) (A : Item) (body : UpdateBody)
    (now : Nat) (hid : (s.items.map (·.id)).Nodup) (hA : A ∈ s.items) :
    ∃ it, findById (updateStep s A.id body now).2.items A.id = some it ∧
      it.doneAt =
        (match body.done with
          | some true => some now
          | some false => none
          | none => A.doneAt) := by
  have hf : findById s.items A.id = some A := findById_of_nodup hid hA
  simp only [updateStep, hf]
  have hcid :
      (applyValue (applyDone (applyOrder A body.order) now body.done)
        body.value).id = A.id := by simp
  have hex : ∃ x ∈ swapWrite s.items A body.order,
      x.id = (applyValue (applyDone (applyOrder A body.order) now body.done)
        body.value).id := by
    have hmem : A.id ∈ (swapWrite s.items A body.order).map (·.id) := by
      rw [swapWrite_map_id]
      exact List.mem_map_of_mem _ hA
    obtain ⟨x, hx, hxid⟩ := List.mem_map.mp hmem
    exact ⟨x, hx, by rw [hxid, hcid]⟩
  have hfind := findById_save_self hex
  rw [hcid] at hfind
  refine ⟨_, hfind, ?_⟩
  cases hbd : body.done with
  | none => simp [applyDone]
  | some d => cases d <;> simp [applyDone]

theorem c6_done_controls_doneAt_witness :
    ∃ it, findById (updateStep (runOps emptyDB [Op.create (.str "a")])
        (Item.id ⟨0, "a", 1, none⟩) ⟨none, some true, none⟩ 42).2.items
        (Item.id ⟨0, "a", 1, none⟩) = some it ∧
      it.doneAt = some 42 :=
  c6_done_controls_doneAt (runOps emptyDB [Op.create (.str "a")])
    ⟨0, "a", 1, none⟩ ⟨none, some true, none⟩ 42 (by decide) (by decide)

/-- C10: updating an existing Item's `order` to its own current `order`
value succeeds with 200 and leaves the store (in particular every Item's
`order`) completely unchanged, even though the holder lookup finds the Item
itself and no explicit self-exclusion check is made. -/
theorem c10_self_order_update_noop (s : DB) (A : Item) (now : Nat)
    (hid : (s.items.map (·.id)).Nodup) (hA : A ∈ s.items) :
    updateStep s A.id ⟨some A.order, none, none⟩ now = (200, s) := by
  have hf : findById s.items A.id = some A := findById_of_nodup hid hA
  simp only [updateStep, hf]
  have hcur :
      applyValue (applyDone (applyOrder A (some A.order)) now none) none =
        A := by
    by_cases ho : A.order = 0
    · simp [applyOrder, applyValue, applyDone, ho]
    · simp [applyOrder, applyValue, applyDone, ho]
  have hsw : swapWrite s.items A (some A.order) = s.items := by
    by_cases ho : A.order = 0
    · simp [swapWrite, ho]
    · have hsome : (s.items.find? (fun it => it.order == A.order)).isSome := by
        rw [List.find?_isSome]
        exact ⟨A, hA, by simp⟩
      obtain ⟨t, ht⟩ := Option.isSome_iff_exists.mp hsome
      have ht' : findByOrder s.items A.order = some t := ht
      obtain ⟨htm, hto⟩ := findByOrder_mem ht'
      have hteq : ({ t with order := A.order } : Item) = t := by
        rw [← hto]
      simp only [swapWrite, ne_eq, ho, not_false_iff, if_true, ht', hteq]
      exact save_eq_self (uniq_id_of_nodup hid htm)
  rw [hsw, hcur, save_eq_self (uniq_id_of_nodup hid hA)]

theorem c10_self_order_update_noop_witness :
    updateStep (runOps emptyDB [Op.create (.str "a"), Op.create (.str "b")])
        (Item.id ⟨0, "a", 1, none⟩)
        ⟨some (Item.order ⟨0, "a", 1, none⟩), none, none⟩ 3 =
      (200, runOps emptyDB [Op.create (.str "a"), Op.create (.str "b")]) :=
  c10_self_order_update_noop
    (runOps emptyDB [Op.create (.str "a"), Op.create (.str "b")])
    ⟨0, "a", 1, none⟩ 3 (by decide) (by decide)

/-- C2 counterexample: in the reachable store `c2Store`, Items 0 (order -1)
and 1 (order 0) both exist and are distinct, yet Update(0, {order: 0}) — an
Update with the other Item's order — leaves the store unchanged instead of
exchanging the two orders, because the JS truthiness test `if (order)`
treats the requested order 0 as absent. -/
theorem c2_counterexample :
    (⟨0, "a", -1, none⟩ : Item) ∈ c2Store.items ∧
      (⟨1, "b", 0, none⟩ : Item) ∈ c2Store.items ∧
      (updateStep c2Store 0 ⟨some 0, none, none⟩ 5).2.items = c2Store.items ∧
      findById (updateStep c2Store 0 ⟨some 0, none, none⟩ 5).2.items 0 ≠
        some ⟨0, "a", 0, none⟩ := by decide

/-- C2 (amended): for distinct existing Items A and B in a store with
pairwise-distinct ids and orders, and B's order nonzero, Update(A.id,
{order: B.order}) answers 200 and exchanges exactly the order values of A
and B: A's record keeps its value and doneAt with order B.order, B's record
keeps its value and doneAt with order A.order, and every other Item is
untouched. -/
theorem c2_swap_exchanges_orders (s : DB) (A B : Item) (now : Nat)
    (hid : (s.items.map (·.id)).Nodup) (hord : (s.items.map (·.order)).Nodup)
    (hA : A ∈ s.items) (hB : B ∈ s.items) (hBA : B.id ≠ A.id)
    (hBo : B.order ≠ 0) :
    (updateStep s A.id ⟨some B.order, none, none⟩ now).1 = 200 ∧
      (updateStep s A.id ⟨some B.order, none, none⟩ now).2.items =
        s.items.map (fun it =>
          if it.id = A.id then { it with order := B.order }
          else if it.id = B.id then { it with order := A.order }
          else it) := by
  have hf : findById s.items A.id = some A := findById_of_nodup hid hA
  have hfo : findByOrder s.items B.order = some B :=
    findByOrder_of_nodup hord hB
  refine ⟨by simp [updateStep, hf], ?_⟩
  simp only [updateStep, hf]
  have hsw : swapWrite s.items A (some B.order) =
      save s.items { B with order := A.order } := by
    simp [swapWrite, hBo, hfo]
  have hcur :
      applyValue (applyDone (applyOrder A (some B.order)) now none) none =
        { A with order := B.order } := by
    simp [applyOrder, applyDone, applyValue, hBo]
  rw [hsw, hcur, save, save, List.map_map]
  apply List.map_congr_left
  intro it hit
  by_cases hitB : it.id = B.id
  · have hitA : ¬ it.id = A.id := by rw [hitB]; exact hBA
    have hIB : it = B := eq_of_id_of_nodup hid hit hB hitB
    simp only [Function.comp]
    rw [if_pos (show it.id = ({ B with order := A.order } : Item).id from hitB)]
    rw [if_neg (show ¬ ({ B with order := A.order } : Item).id =
      ({ A with order := B.order } : Item).id from hBA)]
    rw [if_neg hitA, if_pos hitB, hIB]
  · by_cases hitA : it.id = A.id
    · have hIA : it = A := eq_of_id_of_nodup hid hit hA hitA
      simp only [Function.comp]
      rw [if_neg (show ¬ it.id = ({ B with order := A.order } : Item).id
        from hitB)]
      rw [if_pos (show it.id = ({ A with order := B.order } : Item).id
        from hitA)]
      rw [if_pos hitA, hIA]
    · simp only [Function.comp]
      rw [if_neg (show ¬ it.id = ({ B with order := A.order } : Item).id
        from hitB)]
      rw [if_neg (show ¬ it.id = ({ A with order := B.order } : Item).id
        from hitA)]
      rw [if_neg hitA, if_neg hitB]

theorem c2_swap_exchanges_orders_witness :
    (updateStep (runOps emptyDB [Op.create (.str "a"), Op.create (.str "b")])
        (Item.id ⟨0, "a", 1, none⟩)
        ⟨some (Item.order ⟨1, "b", 2, none⟩), none, none⟩ 9).1 = 200 ∧
      (updateStep (runOps emptyDB [Op.create (.str "a"), Op.create (.str "b")])
          (Item.id ⟨0, "a", 1, none⟩)
          ⟨some (Item.order ⟨1, "b", 2, none⟩), none, none⟩ 9).2.items =
        (runOps emptyDB [Op.create (.str "a"),
          Op.create (.str "b")]).items.map (fun it =>
            if it.id = Item.id ⟨0, "a", 1, none⟩ then
              { it with order := Item.order ⟨1, "b", 2, none⟩ }
            else if it.id = Item.id ⟨1, "b", 2, none⟩ then
              { it with order := Item.order ⟨0, "a", 1, none⟩ }
            else it) :=
  c2_swap_exchanges_orders
    (runOps emptyDB [Op.create (.str "a"), Op.create (.str "b")])
    ⟨0, "a", 1, none⟩ ⟨1, "b", 2, none⟩ 9 (by decide) (by decide) (by decide)
    (by decide) (by decide) (by decide)

/-- C4 counterexample: Item 0 exists with order 1; Update(0, {order: 0})
supplies the integer order 0, yet the order-change steps do not run — the
Item keeps order 1 instead of being set to the requested 0 — because the JS
truthiness test `if (order)` also skips a supplied 0. -/
theorem c4_counterexample :
    (⟨0, "a", 1, none⟩ : Item) ∈ c4Store.items ∧
      findById (updateStep c4Store 0 ⟨some 0, none, none⟩ 7).2.items 0 =
        some ⟨0, "a", 1, none⟩ ∧
      (1 : Int) ≠ 0 := by decide

/-- C4 (amended): for an Update of an existing Item in a store with
pairwise-distinct ids and orders, the order-change steps run exactly when
the supplied `order` is nonzero: a supplied `order` of 0 is skipped like an
absent one (every Item's order is unchanged), while for a supplied nonzero
`order` k the target's order becomes k and any other Item currently holding
k is reassigned the target's previous order. -/
theorem c4_order_change_iff_nonzero (s : DB) (A : Item) (body : UpdateBody)
    (k : Int) (now : Nat)
    (hid : (s.items.map (·.id)).Nodup) (hord : (s.items.map (·.order)).Nodup)
    (hA : A ∈ s.items) (hk : body.order = some k) :
    (k = 0 → (updateStep s A.id body now).2.items.map (·.order) =
        s.items.map (·.order)) ∧
      (k ≠ 0 →
        (∃ it, findById (updateStep s A.id body now).2.items A.id = some it ∧
          it.order = k) ∧
        ∀ B ∈ s.items, B.id ≠ A.id → B.order = k →
          findById (updateStep s A.id body now).2.items B.id =
            some { B with order := A.order }) := by
  have hf : findById s.items A.id = some A := findById_of_nodup hid hA
  have hcid :
      (applyValue (applyDone (applyOrder A body.order) now body.done)
        body.value).id = A.id := by simp
  constructor
  · intro hk0
    subst hk0
    simp only [updateStep, hf]
    have hsw : swapWrite s.items A body.order = s.items := by
      rw [hk]; simp [swapWrite]
    have hco :
        (applyValue (applyDone (applyOrder A body.order) now body.done)
          body.value).order = A.order := by
      rw [hk]; simp [applyOrder]
    rw [hsw, save_map_order_self hid hA hcid hco]
  · intro hk0
    have hco :
        (applyValue (applyDone (applyOrder A body.order) now body.done)
          body.value).order = k := by
      rw [hk]; simp [applyOrder, hk0]
    constructor
    · simp only [updateStep, hf]
      have hex : ∃ x ∈ swapWrite s.items A body.order,
          x.id = (applyValue (applyDone (applyOrder A body.order) now
            body.done) body.value).id := by
        have hmem : A.id ∈ (swapWrite s.items A body.order).map (·.id) := by
          rw [swapWrite_map_id]
          exact List.mem_map_of_mem _ hA
        obtain ⟨x, hx, hxid⟩ := List.mem_map.mp hmem
        exact ⟨x, hx, by rw [hxid, hcid]⟩
      have hfind := findById_save_self hex
      rw [hcid] at hfind
      exact ⟨_, hfind, hco⟩
    · intro B hBmem hBA hBk
      have hfo : findByOrder s.items k = some B := by
        rw [← hBk]
        exact findByOrder_of_nodup hord hBmem
      have hsw : swapWrite s.items A body.order =
          save s.items { B with order := A.order } := by
        rw [hk]; simp [swapWrite, hk0, hfo]
      simp only [updateStep, hf]
      rw [hsw]
      have hne : B.id ≠ (applyValue (applyDone (applyOrder A body.order) now
          body.done) body.value).id := by
        rw [hcid]; exact hBA
      rw [findById_save_ne hne]
      exact findById_save_self ⟨B, hBmem, rfl⟩

theorem c4_order_change_iff_nonzero_witness :
    (∃ it, findById (updateStep
        (runOps emptyDB [Op.create (.str "a"), Op.create (.str "b")])
        (Item.id ⟨0, "a", 1, none⟩) ⟨some 2, none, none⟩ 1).2.items
        (Item.id ⟨0, "a", 1, none⟩) = some it ∧ it.order = 2) ∧
      findById (updateStep
          (runOps emptyDB [Op.create (.str "a"), Op.create (.str "b")])
          (Item.id ⟨0, "a", 1, none⟩) ⟨some 2, none, none⟩ 1).2.items
          (Item.id ⟨1, "b", 2, none⟩) =
        some { (⟨1, "b", 2, none⟩ : Item) with
          order := Item.order ⟨0, "a", 1, none⟩ } :=
  ⟨((c4_order_change_iff_nonzero
      (runOps emptyDB [Op.create (.str "a"), Op.create (.str "b")])
      ⟨0, "a", 1, none⟩ ⟨some 2, none, none⟩ 2 1 (by decide) (by decide)
      (by decide) rfl).2 (by decide)).1,
    ((c4_order_change_iff_nonzero
      (runOps emptyDB [Op.create (.str "a"), Op.create (.str "b")])
      ⟨0, "a", 1, none⟩ ⟨some 2, none, none⟩ 2 1 (by decide) (by decide)
      (by decide) rfl).2 (by decide)).2 ⟨1, "b", 2, none⟩ (by decide)
      (by decide) (by decide)⟩

theorem one_le_length_of_ne_empty {v : String} (h : v ≠ "") :
    1 ≤ v.length := by
  by_contra hc
  have h0 : v.length = 0 := by omega
  apply h
  have hd : v.data.length = 0 := h0
  have hnil : v.data = [] := List.length_eq_zero.mp hd
  cases v
  simp_all

theorem mem_swapWrite {l : List Item} {c : Item} {bo : Option Int} {it : Item}
    (h : it ∈ swapWrite l c bo) :
    it ∈ l ∨ ∃ t ∈ l, it = { t with order := c.order } := by
  cases bo with
  | none => exact Or.inl h
  | some o =>
    by_cases ho : o = 0
    · simp only [swapWrite, ho, ne_eq, not_true_eq_false, if_false] at h
      exact Or.inl h
    · cases hfo : findByOrder l o with
      | none =>
        simp only [swapWrite, ho, ne_eq, not_false_iff, if_true, hfo] at h
        exact Or.inl h
      | some t =>
        simp only [swapWrite, ho, ne_eq, not_false_iff, if_true, hfo] at h
        rcases mem_save h with rfl | hmem
        · exact Or.inr ⟨t, (findByOrder_mem hfo).1, rfl⟩
        · exact Or.inl hmem

theorem valOk_step (s : DB) (op : Op) (hop : opValueBounded op = true)
    (h : ValOk s) : ValOk (step s op) := by
  cases op with
  | create body =>
    cases hv : createdTodoSchema body with
    | none =>
      intro it hit
      simp only [step, createStep, hv] at hit
      exact h it hit
    | some v =>
      obtain ⟨hb, h1, h50⟩ := createdTodoSchema_some hv
      intro it hit
      rw [step, createStep_items_of_valid hv] at hit
      rcases List.mem_append.mp hit with hmem | hmem
      · exact h it hmem
      · simp only [List.mem_singleton] at hmem
        rw [hmem]
        exact ⟨h1, h50⟩
  | update tid body now =>
    cases hf : findById s.items tid with
    | none =>
      intro it hit
      simp only [step, updateStep, hf] at hit
      exact h it hit
    | some A =>
      have hAmem := (findById_mem hf).1
      intro it hit
      simp only [step, updateStep, hf] at hit
      rcases mem_save hit with rfl | hmem
      · cases hbv : body.value with
        | none =>
          simp only [applyValue, applyDone_value, applyOrder_value]
          exact h A hAmem
        | some v =>
          by_cases hve : v = ""
          · simp only [applyValue, hve, ne_eq, not_true_eq_false, if_false,
              applyDone_value, applyOrder_value]
            exact h A hAmem
          · simp only [applyValue, hve, ne_eq, not_false_iff, if_true]
            refine ⟨one_le_length_of_ne_empty hve, ?_⟩
            simp only [opValueBounded, hbv] at hop
            simpa using hop
      · rcases mem_swapWrite hmem with hmem' | ⟨t, htm, rfl⟩
        · exact h it hmem'
        · exact h t htm
  | delete tid =>
    cases hf : findById s.items tid with
    | none =>
      intro it hit
      simp only [step, deleteStep, hf] at hit
      exact h it hit
    | some A =>
      intro it hit
      simp only [step, deleteStep, hf] at hit
      exact h it ((List.eraseP_sublist _).subset hit)

theorem valOk_runOps {ops : List Op}
    (hops : ∀ op ∈ ops, opValueBounded op = true) :
    ∀ s, ValOk s → ValOk (runOps s ops) := by
  induction ops with
  | nil => intro s hs; exact hs
  | cons op rest ih =>
    intro s hs
    exact ih (fun x hx => hops x (List.mem_cons_of_mem op hx))
      (step s op) (valOk_step s op (hops op (List.mem_cons_self op rest)) hs)

/-- C5 counterexample: starting from the empty store, a valid Create
followed by an Update whose supplied value is a 51-character string leaves
an Item whose value has length 51 in the store — Update performs no length
validation on `value`, so arbitrary string inputs break the 1–50 bound. -/
theorem c5_counterexample :
    ¬ ∀ it ∈ (runOps emptyDB [Op.create (.str "a"),
        Op.update 0 ⟨none, none, some oversizedValue⟩ 0]).items,
      1 ≤ it.value.length ∧ it.value.length ≤ 50 := by decide

/-- C5 (amended): after every sequence of Create/Update/Delete operations
from the empty store in which every Update-supplied value has length at most
50, every remaining Item's value has length 1 to 50 (non-emptiness needs no
side condition: Create validates 1–50 and Update skips an empty-string
value by JS truthiness, but Update performs no upper-length check of its
own, so the 50 bound must be assumed of its inputs). -/
theorem c5_value_length_invariant (ops : List Op)
    (hops : ∀ op ∈ ops, opValueBounded op = true) :
    ∀ it ∈ (runOps emptyDB ops).items,
      1 ≤ it.value.length ∧ it.value.length ≤ 50 :=
  valOk_runOps hops emptyDB (fun it hit => by simp [emptyDB] at hit)

theorem c5_value_length_invariant_witness :
    1 ≤ (Item.value ⟨0, "ab", 1, none⟩).length ∧
      (Item.value ⟨0, "ab", 1, none⟩).length ≤ 50 :=
  c5_value_length_invariant [Op.create (.str "ab")] (by decide)
    ⟨0, "ab", 1, none⟩ (by decide)

end TodoApp
